import Mathlib

/-!
Verification of the ipm package-manager core (catalog resolution, URL
building, install/uninstall, local registry and dependency store) against
its natural-language specification.  The definitions below are a shallow
embedding of the Python sources in src/ipm/common.py; theorem names refer
to the claims of the specification.
-/

namespace IPM

/-! ## String helpers

Python string primitives used by the source: `repo.split('/')` and the
substring test `"github.com" in repo`.  They are re-implemented over the
character list of the string so that everything reduces in the kernel.
-/

/-- Split a character list at every occurrence of the separator character,
mirroring the Python `str.split(sep)` semantics (adjacent separators give
empty fields, the empty input gives one empty field). -/
def splitOnChar (c : Char) : List Char → List (List Char)
  | [] => [[]]
  | x :: xs =>
    if x = c then [] :: splitOnChar c xs
    else
      match splitOnChar c xs with
      | [] => [[x]]
      | y :: ys => (x :: y) :: ys

/-- Python `repo.split('/')` as used in RemoteIP.get_info (common.py line 278). -/
def splitSlash (s : String) : List String :=
  (splitOnChar '/' s.data).map (fun l => String.mk l)

/-- Whether `needle` occurs at the start of `hay`. -/
def listIsPrefixOf : List Char → List Char → Bool
  | [], _ => true
  | _ :: _, [] => false
  | a :: as, b :: bs => a = b && listIsPrefixOf as bs

/-- Python substring containment `needle in hay` on strings. -/
def containsSub (needle hay : List Char) : Bool :=
  match hay with
  | [] => listIsPrefixOf needle []
  | _ :: t => listIsPrefixOf needle hay || containsSub needle t

/-- Python `"github.com" in repo` (common.py line 279). -/
def hasGithub (repo : String) : Bool :=
  containsSub "github.com".data repo.data

/-! ## URL builder (RemoteIP.get_info, common.py lines 274-288)

The source builds the archive URL when the repo string has at least three
slash-separated parts AND contains the substring github.com; otherwise it
falls back to the releases/download URL.
-/

/-- The installer-convention URL builder, translated from
RemoteIP.get_info lines 277-285: split the repo on `/`; if there are at
least three parts and the repo contains the substring `github.com`, build
the archive/refs/tags URL using the last part as repo name; otherwise
build the releases/download URL. -/
def release_url (repo version : String) : String :=
  let repo_parts := splitSlash repo
  if 3 ≤ repo_parts.length ∧ hasGithub repo = true then
    let repo_name := repo_parts.getLastD ""
    "https://" ++ repo ++ "/archive/refs/tags/" ++ repo_name ++ "-" ++ version ++ ".tar.gz"
  else
    "https://" ++ repo ++ "/releases/download/" ++ version ++ "/" ++ version ++ ".tar.gz"

/-! ## Catalog data model

The remote catalog JSON comes in two shapes (common.py, spec section 3):
the Flat schema maps package names to record objects carrying a
description field and a release map, while the Legacy schema maps
category names to lists of records whose version history is a list of
objects with an explicit version field.  A top-level value is therefore
either a Flat record or a list of Legacy records; insertion order of
JSON objects is modelled by association lists.
-/

/-- Metadata of one release in the Flat schema release map
(fields read by RemoteIP.get_info, common.py lines 226-232). -/
structure ReleaseInfo where
  date : String
  type : String
  width : String
  height : String
  cell_count : String
  clock_freq_mhz : String
  maturity : Option String
deriving DecidableEq, Repr

/-- One Flat-schema catalog record (the value under a package-name key).
Flat-schema values always contain a description field; the detection code
tests for its presence. -/
structure FlatIPData where
  description : String
  repo : String
  author : String
  email : String
  category : String
  technology : String
  license : String
  tags : List String
  release : List (String × ReleaseInfo)
deriving DecidableEq, Repr

/-- One version entry in a Legacy-schema release list. -/
structure LegacyRelease where
  version : String
  date : String
deriving DecidableEq, Repr

/-- One Legacy-schema catalog record (an element of a category list). -/
structure LegacyIPData where
  name : String
  repo : String
  release : List LegacyRelease
  author : String
  email : String
  type : String
  status : String
  width : String
  height : String
  technology : String
  tag : List String
  cell_count : String
  clk_freq : String
  license : String
deriving DecidableEq, Repr

/-- A top-level value of the catalog JSON object: either a Flat record or
a Legacy category list. -/
inductive CatalogEntryVal where
  | flat (v : FlatIPData)
  | legacyList (recs : List LegacyIPData)
deriving DecidableEq, Repr

/-- A parsed catalog JSON object: top-level keys in insertion order. -/
abbrev Catalog := List (String × CatalogEntryVal)

/-- Python dictionary lookup `d[k]` on an insertion-ordered object. -/
def assocLookup {α : Type} (k : String) : List (String × α) → Option α
  | [] => none
  | (k2, v) :: t => if k2 = k then some v else assocLookup k t

/-- Python dictionary membership `k in d`. -/
def containsKey {α : Type} (k : String) (l : List (String × α)) : Bool :=
  (assocLookup k l).isSome

/-! ## Schema detection

Four read operations share a textually identical detection rule
(common.py lines 391-392, 518-519, 638-639, 678-679): take the first
top-level key; the document is Flat when that key is truthy (non-empty)
and its value contains a description field.  A Legacy category value is a
list, so the Python membership test of the string description in it is
false.  RemoteIP.get_info (line 203) instead branches on whether the
REQUESTED name is a top-level key.
-/

/-- Whether the Python truthiness test `"description" in data[first_key]`
succeeds on a top-level value: key membership for an object, element
membership for a list (always false here, category lists hold records,
not strings). -/
def valueHasDescription : CatalogEntryVal → Bool
  | .flat _ => true
  | .legacyList _ => false

/-- Schema detection of list_IPs (common.py lines 391-392). -/
def detect_flat_list_IPs (data : Catalog) : Bool :=
  match data with
  | [] => false
  | (k, _) :: _ =>
    k ≠ "" && containsKey k data &&
      (match assocLookup k data with
       | some v => valueHasDescription v
       | none => false)

/-- Schema detection of list_IPs_local (common.py lines 518-519). -/
def detect_flat_list_IPs_local (data : Catalog) : Bool :=
  match data with
  | [] => false
  | (k, _) :: _ =>
    k ≠ "" && containsKey k data &&
      (match assocLookup k data with
       | some v => valueHasDescription v
       | none => false)

/-- Schema detection of get_IP_list (common.py lines 638-639). -/
def detect_flat_get_IP_list (data : Catalog) : Bool :=
  match data with
  | [] => false
  | (k, _) :: _ =>
    k ≠ "" && containsKey k data &&
      (match assocLookup k data with
       | some v => valueHasDescription v
       | none => false)

/-- Schema detection of get_IP_info (common.py lines 678-679). -/
def detect_flat_get_IP_info (data : Catalog) : Bool :=
  match data with
  | [] => false
  | (k, _) :: _ =>
    k ≠ "" && containsKey k data &&
      (match assocLookup k data with
       | some v => valueHasDescription v
       | none => false)

/-- Schema decision of RemoteIP.get_info (common.py line 203): the
document is treated as Flat exactly when the requested package name is a
top-level key. -/
def detect_flat_remote (ip : String) (data : Catalog) : Bool :=
  containsKey ip data

/-! ## Remote resolution (RemoteIP.get_info, common.py lines 198-289)

The Python method mutates attributes of the RemoteIP object; unset
attributes raise AttributeError when read.  The embedding threads a
record of optional fields and returns an error value for the runtime
failures the source can hit (attribute access on an unset field, indexing
an empty list, subscripting a value of the wrong shape).
-/

/-- Runtime failures of the Python source.  The constructor
versionNotFound never occurs in the embedded code: it is the error kind
named by the specification (section 7), included so that theorems can
compare what the code raises against what the specification demands. -/
inductive PyErr where
  | attributeError (field : String)
  | typeError
  | indexError
  | keyError (key : String)
  | fileNotFound (path : String)
  | versionNotFound
deriving DecidableEq, Repr

/-- The attribute state of a RemoteIP object during get_info: every field
starts unset (none) and is filled as the source assigns it.  The release
attribute holds a Flat release map or a Legacy release list depending on
the branch taken; the two shapes get separate fields. -/
structure RemoteInfo where
  name : Option String := none
  repo : Option String := none
  author : Option String := none
  email : Option String := none
  category : Option String := none
  technology : Option String := none
  license : Option String := none
  tag : Option (List String) := none
  release : Option (List (String × ReleaseInfo)) := none
  releaseLegacy : Option (List LegacyRelease) := none
  version : Option String := none
  date : Option String := none
  type : Option String := none
  status : Option String := none
  width : Option String := none
  height : Option String := none
  cell_count : Option String := none
  clk_freq : Option String := none
  ip_root : Option String := none
  release_url : Option String := none
deriving DecidableEq, Repr

/-- Flat-branch attribute population of RemoteIP.get_info (common.py
lines 205-244): unconditionally set the record-level fields and the
release map; with no requested version take the LAST key of the release
map as latest (when the map is non-empty); with a requested version set
the version fields only when the version is a key of the release map —
otherwise they silently stay unset. -/
def flat_populate (ip technology : String) (version : Option String) (v : FlatIPData) :
    RemoteInfo :=
  let st : RemoteInfo :=
    { name := some ip
      repo := some v.repo
      author := some v.author
      email := some v.email
      category := some v.category
      technology := some technology
      license := some v.license
      tag := some v.tags
      release := some v.release }
  match version with
  | none =>
    let versions := v.release.map Prod.fst
    match versions.getLast? with
    | none => st
    | some latest =>
      match assocLookup latest v.release with
      | none => st
      | some ri =>
        { st with
          version := some latest
          date := some ri.date
          type := some ri.type
          width := some ri.width
          height := some ri.height
          cell_count := some ri.cell_count
          clk_freq := some ri.clock_freq_mhz
          status := some (ri.maturity.getD "unknown") }
  | some ver =>
    if (v.release.map Prod.fst).contains ver then
      match assocLookup ver v.release with
      | none => st
      | some ri =>
        { st with
          version := some ver
          date := some ri.date
          type := some ri.type
          width := some ri.width
          height := some ri.height
          cell_count := some ri.cell_count
          clk_freq := some ri.clock_freq_mhz
          status := some (ri.maturity.getD "unknown") }
    else st

/-- Legacy-branch handling of one matched record (common.py lines
249-272): set name, repo and release; resolve the version (last list
element when none requested — IndexError on an empty list — or a linear
scan that silently leaves the fields untouched when the requested version
is absent); then set the remaining record-level fields. -/
def legacy_record_populate (ip technology key : String) (version : Option String)
    (r : LegacyIPData) (st : RemoteInfo) : Except PyErr RemoteInfo :=
  let st1 : RemoteInfo :=
    { st with name := some ip, repo := some r.repo, releaseLegacy := some r.release }
  let st2e : Except PyErr RemoteInfo :=
    match version with
    | none =>
      match r.release.getLast? with
      | none => .error .indexError
      | some lr => .ok { st1 with version := some lr.version, date := some lr.date }
    | some ver =>
      .ok (r.release.foldl
        (fun acc l =>
          if l.version = ver then { acc with version := some l.version, date := some l.date }
          else acc)
        st1)
  match st2e with
  | .error e => .error e
  | .ok st2 =>
    .ok { st2 with
          author := some r.author
          email := some r.email
          category := some key
          type := some r.type
          status := some r.status
          width := some r.width
          height := some r.height
          technology := some technology
          tag := some r.tag
          cell_count := some r.cell_count
          clk_freq := some r.clk_freq
          license := some r.license }

/-- Legacy-branch scan over one category list (inner loop of common.py
lines 247-272): every record matching name and technology overwrites the
attributes; non-matching records are skipped. -/
def legacy_bucket_scan (ip technology key : String) (version : Option String) :
    List LegacyIPData → RemoteInfo → Except PyErr RemoteInfo
  | [], st => .ok st
  | r :: rs, st =>
    if r.name = ip ∧ r.technology = technology then
      match legacy_record_populate ip technology key version r st with
      | .error e => .error e
      | .ok st2 => legacy_bucket_scan ip technology key version rs st2
    else legacy_bucket_scan ip technology key version rs st

/-- Legacy-branch scan over the whole document (outer loop of common.py
lines 247-272).  Iterating a Flat record value with `for value in values`
yields its keys, which are strings, and the subsequent `value["name"]`
subscript raises TypeError. -/
def legacy_scan (ip technology : String) (version : Option String) :
    Catalog → RemoteInfo → Except PyErr RemoteInfo
  | [], st => .ok st
  | (_, .flat _) :: _, _ => .error .typeError
  | (key, .legacyList recs) :: rest, st =>
    match legacy_bucket_scan ip technology key version recs st with
    | .error e => .error e
    | .ok st2 => legacy_scan ip technology version rest st2

/-- URL construction step of RemoteIP.get_info (common.py lines 274-288),
reading the repo and version attributes of the populated object; an unset
attribute raises AttributeError. -/
def build_release_url (st : RemoteInfo) : Except PyErr RemoteInfo :=
  match st.repo with
  | none => .error (.attributeError "repo")
  | some repo =>
    if 3 ≤ (splitSlash repo).length ∧ hasGithub repo = true then
      match st.version with
      | none => .error (.attributeError "version")
      | some v => .ok { st with release_url := some (release_url repo v) }
    else
      match st.version with
      | none => .error (.attributeError "version")
      | some v => .ok { st with release_url := some (release_url repo v) }

/-- RemoteIP.get_info as a whole (common.py lines 198-288), up to the
final attribute state: branch on whether the requested name is a
top-level key (Flat treatment, TypeError if the value is actually a
category list) or fall back to the Legacy scan, then build the release
URL. -/
def remote_get_info_raw (data : Catalog) (ip technology : String)
    (version : Option String) : Except PyErr RemoteInfo :=
  if containsKey ip data then
    match assocLookup ip data with
    | some (.flat v) => build_release_url (flat_populate ip technology version v)
    | some (.legacyList _) => .error .typeError
    | none => .error (.keyError ip)
  else
    match legacy_scan ip technology version data {} with
    | .error e => .error e
    | .ok st => build_release_url st

/-- The resolved release descriptor read by the install path: the fields
of the RemoteIP object that every caller dereferences after a successful
get_info. -/
structure ResolvedRemote where
  name : String
  repo : String
  version : String
  date : String
  category : String
  technology : String
  release_url : String
deriving DecidableEq, Repr

/-- Extraction of the descriptor fields from a populated attribute state;
a missing field would be an AttributeError at its first use site.  Every
state produced by a successful remote_get_info_raw has all of them set. -/
def assembleResolved (st : RemoteInfo) : Except PyErr ResolvedRemote :=
  match st.name, st.repo, st.version, st.date, st.category, st.technology, st.release_url with
  | some n, some r, some v, some d, some c, some t, some u =>
    .ok { name := n, repo := r, version := v, date := d, category := c,
          technology := t, release_url := u }
  | none, _, _, _, _, _, _ => .error (.attributeError "name")
  | _, none, _, _, _, _, _ => .error (.attributeError "repo")
  | _, _, none, _, _, _, _ => .error (.attributeError "version")
  | _, _, _, none, _, _, _ => .error (.attributeError "date")
  | _, _, _, _, none, _, _ => .error (.attributeError "category")
  | _, _, _, _, _, none, _ => .error (.attributeError "technology")
  | _, _, _, _, _, _, none => .error (.attributeError "release_url")

/-- Remote resolution yielding the release descriptor used by install,
update and check. -/
def remote_get_info (data : Catalog) (ip technology : String)
    (version : Option String) : Except PyErr ResolvedRemote :=
  match remote_get_info_raw data ip technology version with
  | .error e => .error e
  | .ok st => assembleResolved st

/-! ## Version check comparisons (check_IP, common.py lines 975-1065) -/

/-- Result of a version check for one package. -/
inductive CheckOutcome where
  | upToDate
  | updateAvailable
deriving DecidableEq, Repr

/-- Comparison performed for each package of the check-all loop
(common.py lines 995-1003): the LOCALLY recorded version against the
freshly resolved REMOTE version, exact string equality. -/
def check_all_entry (localVersion remoteVersion : String) : CheckOutcome :=
  if localVersion = remoteVersion then .upToDate else .updateAvailable

/-- Comparison performed by the single-package check (common.py line
1042): the locally recorded version against the VERSION ARGUMENT of the
call, which is None for a plain check; the freshly resolved remote
version is fetched but not consulted by the comparison. -/
def check_single (localVersion : String) (version : Option String) : CheckOutcome :=
  if some localVersion = version then .upToDate else .updateAvailable

/-! ## Local registry and dependency store (LocalIP, common.py lines 57-192)

The local registry Installed_IPs.json is a JSON object keyed by category,
each value a list of installed-record objects; the dependency manifest
dependencies.json holds one list under the key IP.  Records are modelled
with the fields the embedded control flow reads and compares; a record
carries more metadata in the source, which does not alter any branch
taken here.
-/

/-- An installed-record entry of the local registry (the dictionary
written by LocalIP.add_ip_to_json, restricted to the consulted fields). -/
structure RegRecord where
  name : String
  repo : String
  version : String
  date : String
  technology : String
  category : String
  ip_root : String
deriving DecidableEq, Repr

/-- The local registry document: category key to list of records. -/
abbrev Registry := List (String × List RegRecord)

/-- One entry of the dependency manifest: the triple written by
LocalIP.create_deps (common.py lines 184-188). -/
structure DepEntry where
  name : String
  version : String
  technology : String
deriving DecidableEq, Repr

/-- Python dictionary update `d[k] = v`: replace the value of the first
matching key, append the binding when the key is absent. -/
def assocSet {α : Type} (k : String) (v : α) : List (String × α) → List (String × α)
  | [] => [(k, v)]
  | (k2, v2) :: t => if k2 = k then (k, v) :: t else (k2, v2) :: assocSet k v t

/-- The Python idiom `for x in lst: if pred(x): lst.remove(x)` used by
LocalIP.remove_ip_from_json (lines 144-146) and LocalIP.remove_from_deps
(lines 162-164).  Iteration is by position; list.remove deletes the first
element EQUAL to the current one and the position still advances, so the
element sliding into the freed slot is never examined. -/
def removeLoopAux {α : Type} [DecidableEq α] (p : α → Bool) :
    Nat → List α → Nat → List α
  | 0, l, _ => l
  | fuel + 1, l, i =>
    if h : i < l.length then
      if p l[i] then removeLoopAux p fuel (l.erase l[i]) (i + 1)
      else removeLoopAux p fuel l (i + 1)
    else l

/-- The loop itself.  The index advances by one per step and the list
never grows, so the loop takes at most l.length steps from any starting
index: the fuel l.length + 1 is always sufficient, making the recursion
structural (and hence computable by the kernel). -/
def removeLoop {α : Type} [DecidableEq α] (p : α → Bool) (l : List α) (i : Nat) :
    List α :=
  removeLoopAux p (l.length + 1) l i

/-- Inner-loop body of LocalIP.get_info (common.py lines 93-112): scan a
category list, every record matching name and technology overwrites the
result, so the LAST match of the bucket wins. -/
def scanBucket (ip tech key : String) :
    List RegRecord → Option (String × RegRecord) → Option (String × RegRecord)
  | [], acc => acc
  | r :: rs, acc =>
    scanBucket ip tech key rs
      (if r.name = ip ∧ r.technology = tech then some (key, r) else acc)

/-- Outer loop of LocalIP.get_info over the category buckets. -/
def localGetInfoGo (ip tech : String) :
    Registry → Option (String × RegRecord) → Option (String × RegRecord)
  | [], acc => acc
  | (key, bucket) :: rest, acc =>
    localGetInfoGo ip tech rest (scanBucket ip tech key bucket acc)

/-- LocalIP.get_info (common.py lines 89-114): the category key and
record of the last registry entry matching the name and technology, or
none when no entry matches (in which case the Python object keeps all
attributes unset). -/
def local_get_info (reg : Registry) (ip tech : String) :
    Option (String × RegRecord) :=
  localGetInfoGo ip tech reg none

/-- Predicate of the removal loop in LocalIP.remove_ip_from_json (line
145): name AND stored ip_root both equal. -/
def removeMatch (ip root : String) (x : RegRecord) : Bool :=
  x.name == ip && x.ip_root == root

/-- LocalIP.remove_ip_from_json (common.py lines 136-150): call get_info
with the DEFAULT technology sky130 to learn the category and stored
ip_root, then run the remove-while-iterating loop over that category
bucket matching on name and that root.  When get_info matched nothing,
get_info itself already fails: its unconditional release-URL construction
(common.py line 113) dereferences the unset repo attribute and raises
AttributeError before the category access at line 142 is ever reached.
Returns the new registry together with the ip_root the object ended up
with (used by the callers for the dependency-manifest path). -/
def remove_ip_from_json (reg : Registry) (ip : String) :
    Except PyErr (Registry × String) :=
  match local_get_info reg ip "sky130" with
  | none => .error (.attributeError "repo")
  | some (cat, rec) =>
    match assocLookup cat reg with
    | none => .error (.keyError cat)
    | some bucket =>
      let bucket2 := removeLoop (removeMatch ip rec.ip_root) bucket 0
      .ok (assocSet cat bucket2 reg, rec.ip_root)

/-- The set of dependency-manifest files on disk: manifest directory path
to the list stored under its IP key; a missing binding is a missing
file. -/
abbrev DepsFiles := List (String × List DepEntry)

/-- LocalIP.remove_from_deps (common.py lines 152-168): open the manifest
at the given directory (FileNotFoundError when absent) and run the
remove-while-iterating loop matching on the name alone. -/
def remove_from_deps (deps : DepsFiles) (path ip : String) :
    Except PyErr DepsFiles :=
  match assocLookup path deps with
  | none => .error (.fileNotFound path)
  | some doc =>
    let doc2 := removeLoop (fun d => d.name == ip) doc 0
    .ok (assocSet path doc2 deps)

/-- LocalIP.create_deps (common.py lines 170-192): load the manifest at
the given directory or start an empty one, append the
name/version/technology triple, write it back. -/
def create_deps (deps : DepsFiles) (path : String) (e : DepEntry) : DepsFiles :=
  let doc := (assocLookup path deps).getD []
  assocSet path (doc ++ [e]) deps

/-- Paths of the model are absolute and normalized, so os.path.abspath
keeps them unchanged. -/
def pabspath (s : String) : String := s

/-- The installed record written by LocalIP.add_ip_to_json from the
resolved remote descriptor and the absolutized install root. -/
def mkInstalledRecord (r : ResolvedRemote) (root : String) : RegRecord :=
  { name := r.name
    repo := r.repo
    version := r.version
    date := r.date
    technology := r.technology
    category := r.category
    ip_root := root }

/-- LocalIP.add_ip_to_json (common.py lines 122-134): append the record
into the bucket of its category; a category key absent from the local
registry raises KeyError.  Returns the new registry and the absolutized
ip_root stored on the object. -/
def add_ip_to_json (reg : Registry) (r : ResolvedRemote) (ip_root : String) :
    Except PyErr (Registry × String) :=
  let root := pabspath ip_root
  let rec2 := mkInstalledRecord r root
  match assocLookup r.category reg with
  | none => .error (.keyError r.category)
  | some bucket => .ok (assocSet r.category (bucket ++ [rec2]) reg, root)

/-! ## Filesystem and install state

The filesystem fragment the installer touches is modelled as a map from
directory path to the list of entry names directly inside it; a missing
binding is a missing directory.  Scratch artifacts (the temporary tarball
and extraction directory) are created and always removed again before any
observable step, so they are not tracked.
-/

/-- os.path.join for the two-component joins of the source. -/
def pjoin (a b : String) : String := a ++ "/" ++ b

/-- Directory listing lookup: none when the directory does not exist. -/
def fsLookup (fs : List (String × List String)) (p : String) : Option (List String) :=
  assocLookup p fs

/-- shutil.rmtree: the directory disappears. -/
def fsRemove (p : String) (fs : List (String × List String)) :
    List (String × List String) :=
  fs.filter (fun kv => ¬ kv.1 = p)

/-- os.makedirs followed by copying entries: the directory now holds
exactly the copied entry names. -/
def fsSet (p : String) (entries : List String)
    (fs : List (String × List String)) : List (String × List String) :=
  assocSet p entries fs

/-- The mutable state visible to install, uninstall and the bulk
installer: tracked directories, the local registry document and the
dependency-manifest files. -/
structure IPMState where
  fs : List (String × List String)
  registry : Registry
  depsFiles : DepsFiles
deriving DecidableEq, Repr

/-- A node of an extracted archive: a file or a directory entry of the
scratch directory. -/
inductive FNode where
  | file (name : String)
  | dir (name : String) (children : List FNode)

/-- Name of an extracted entry. -/
def fnodeName : FNode → String
  | .file n => n
  | .dir n _ => n

/-- Layout classification of the extracted archive (common.py lines
793-822): when the scratch directory holds exactly one entry and it is a
directory, the children of that directory are copied (wrapped layout);
otherwise the scratch entries themselves are copied (flat layout). -/
def classify_contents (extracted : List FNode) : List FNode :=
  match extracted with
  | [FNode.dir _ children] => children
  | l => l

/-- The download and archive environment of one run: the remote catalog
document, the HTTP status per URL and the extracted archive contents per
URL. -/
structure RemoteEnv where
  catalog : Catalog
  status : String → Nat
  archive : String → List FNode

/-- Failure of the shared fetch-and-place sequence. -/
inductive CoreFail where
  | pyError (e : PyErr)
  | downloadFailed (code : Nat) (url : String)
deriving DecidableEq, Repr

/-- Result of the shared fetch-and-place sequence. -/
inductive CoreResult where
  | fail (f : CoreFail)
  | success (r : ResolvedRemote) (root : String)
deriving DecidableEq, Repr

/-- The fetch-and-place sequence shared by install_ip (common.py lines
753-831) and the per-entry body of install_deps_ip (lines 879-956):
resolve the remote record, abort on a non-200 download status, extract
and classify the archive, copy the contents into ip_root/ip, then append
the installed record to the registry. -/
def install_fetch_place (env : RemoteEnv) (s : IPMState) (ip technology : String)
    (version : Option String) (ip_root : String) : IPMState × CoreResult :=
  match remote_get_info env.catalog ip technology version with
  | .error e => (s, .fail (.pyError e))
  | .ok r =>
    let code := env.status r.release_url
    if code ≠ 200 then (s, .fail (.downloadFailed code r.release_url))
    else
      let ip_path := pjoin ip_root ip
      let contents := classify_contents (env.archive r.release_url)
      let s1 : IPMState := { s with fs := fsSet ip_path (contents.map fnodeName) s.fs }
      match add_ip_to_json s1.registry r ip_root with
      | .error e => (s1, .fail (.pyError e))
      | .ok (reg2, root) => ({ s1 with registry := reg2 }, .success r root)

/-- Outcome of a single-package install. -/
inductive InstallOutcome where
  | destinationExists
  | downloadFailed (code : Nat) (url : String)
  | pyError (e : PyErr)
  | ok (version : String)
deriving DecidableEq, Repr

/-- Map a fetch-and-place failure to the install outcome. -/
def installOutcomeOfFail : CoreFail → InstallOutcome
  | .pyError e => .pyError e
  | .downloadFailed c u => .downloadFailed c u

/-- Tail of install_ip after the destination guard (common.py lines
753-832): fetch and place, then ALWAYS append a dependency entry via
create_deps at deps_file or, when none is given, at the absolutized
install root. -/
def install_core (env : RemoteEnv) (s : IPMState) (ip technology : String)
    (version : Option String) (ip_root : String) (deps_file : Option String) :
    IPMState × InstallOutcome :=
  match install_fetch_place env s ip technology version ip_root with
  | (s2, .fail f) => (s2, installOutcomeOfFail f)
  | (s2, .success r root) =>
    ({ s2 with
       depsFiles := create_deps s2.depsFiles (deps_file.getD root)
         { name := r.name, version := r.version, technology := r.technology } },
     .ok r.version)

/-- install_ip (common.py lines 725-832).  Destination guard: when
ip_root/ip exists and is non-empty, report and stop unless overwrite is
set, in which case remove the registry entries via remove_ip_from_json
(AttributeError from the registry lookup when the name has no sky130
registry entry), remove the dependency entries for the name
(FileNotFoundError when the manifest file is absent), and delete the
tree; when it exists and is empty just delete it; then run the
post-guard sequence. -/
def install_ip (env : RemoteEnv) (s : IPMState) (ip : String) (overwrite : Bool)
    (technology : String) (version : Option String) (ip_root : String)
    (deps_file : Option String) : IPMState × InstallOutcome :=
  let ip_path := pjoin ip_root ip
  match fsLookup s.fs ip_path with
  | some entries =>
    if entries ≠ [] then
      if ¬ overwrite then (s, .destinationExists)
      else
        match remove_ip_from_json s.registry ip with
        | .error e => (s, .pyError e)
        | .ok (reg2, root2) =>
          let s1 : IPMState := { s with registry := reg2 }
          match remove_from_deps s1.depsFiles (deps_file.getD root2) ip with
          | .error e => (s1, .pyError e)
          | .ok d2 =>
            let s2 : IPMState := { s1 with depsFiles := d2, fs := fsRemove ip_path s1.fs }
            install_core env s2 ip technology version ip_root deps_file
    else
      install_core env { s with fs := fsRemove ip_path s.fs } ip technology version
        ip_root deps_file
  | none => install_core env s ip technology version ip_root deps_file

/-- Outcome of uninstall_ip. -/
inductive UninstallOutcome where
  | ok
  | notFound
  | pyError (e : PyErr)
deriving DecidableEq, Repr

/-- uninstall_ip (common.py lines 959-972): when ip_root/ip exists,
remove the registry entries, remove the dependency entries (manifest at
deps_file or at the registry-recorded root), delete the tree; otherwise
only report that the IP was not found there. -/
def uninstall_ip (s : IPMState) (ip ip_root : String) (deps_file : Option String) :
    IPMState × UninstallOutcome :=
  let ip_path := pjoin ip_root ip
  match fsLookup s.fs ip_path with
  | some _ =>
    match remove_ip_from_json s.registry ip with
    | .error e => (s, .pyError e)
    | .ok (reg2, root2) =>
      let s1 : IPMState := { s with registry := reg2 }
      match remove_from_deps s1.depsFiles (deps_file.getD root2) ip with
      | .error e => (s1, .pyError e)
      | .ok d2 =>
        ({ s1 with depsFiles := d2, fs := fsRemove ip_path s1.fs }, .ok)
  | none => (s, .notFound)

/-- Outcome of the bulk dependency installer. -/
inductive BulkOutcome where
  | done
  | invalid (name : String)
  | stopped
  | downloadFailed (code : Nat) (url : String)
  | pyError (e : PyErr)
deriving DecidableEq, Repr

/-- Map a fetch-and-place failure to the bulk outcome (both failure kinds
abort the whole batch in the source, via exit(1) or an uncaught
exception). -/
def bulkOutcomeOfFail : CoreFail → BulkOutcome
  | .pyError e => .pyError e
  | .downloadFailed c u => .downloadFailed c u

/-- Loop body of install_deps_ip (common.py lines 855-956): for each
manifest entry, exit when the name is not a known IP; apply the same
destination guard as install_ip, except that a non-empty existing
destination without overwrite RETURNS from the whole function; then fetch
and place.  No dependency entry is ever appended here. -/
def install_deps_go (env : RemoteEnv) (overwrite : Bool) (ip_root : String)
    (deps_file : Option String) (ipList : List String) :
    IPMState → List DepEntry → IPMState × BulkOutcome
  | s, [] => (s, .done)
  | s, e :: rest =>
    if ¬ (ipList.contains e.name = true) then (s, .invalid e.name)
    else
      let ip_path := pjoin ip_root e.name
      let guard : IPMState × Option BulkOutcome :=
        match fsLookup s.fs ip_path with
        | some entries =>
          if entries ≠ [] then
            if ¬ overwrite then (s, some .stopped)
            else
              match remove_ip_from_json s.registry e.name with
              | .error er => (s, some (.pyError er))
              | .ok (reg2, root2) =>
                let s1 : IPMState := { s with registry := reg2 }
                match remove_from_deps s1.depsFiles (deps_file.getD root2) e.name with
                | .error er => (s1, some (.pyError er))
                | .ok d2 =>
                  ({ s1 with depsFiles := d2, fs := fsRemove ip_path s1.fs }, none)
          else ({ s with fs := fsRemove ip_path s.fs }, none)
        | none => (s, none)
      match guard with
      | (s2, some o) => (s2, o)
      | (s2, none) =>
        match install_fetch_place env s2 e.name e.technology (some e.version) ip_root with
        | (s3, .fail f) => (s3, bulkOutcomeOfFail f)
        | (s3, .success _ _) =>
          install_deps_go env overwrite ip_root deps_file ipList s3 rest

/-- Whether any registry entry carries the given name (any technology,
any category, any root). -/
def regHasName (reg : Registry) (ip : String) : Bool :=
  reg.any (fun kb => kb.2.any (fun r => r.name == ip))

/-- The first slash-separated segment of a repo location, i.e. its host
(repo locations are host+path with no scheme). -/
def repoHost (repo : String) : String :=
  (splitSlash repo).headD ""

/-- The last slash-separated segment of a repo location. -/
def repoBaseName (repo : String) : String :=
  (splitSlash repo).getLastD ""

/-- URL builder following the words of the specification (claim C1): if
the repository HOST is github.com, build the archive/refs/tags URL with
the repo base name; otherwise the releases/download URL.  This definition
follows the specification text and is compared against `release_url`,
which is translated from the source. -/
def claim_url (repo version : String) : String :=
  if repoHost repo = "github.com" then
    "https://" ++ repo ++ "/archive/refs/tags/" ++ repoBaseName repo ++ "-" ++ version ++ ".tar.gz"
  else
    "https://" ++ repo ++ "/releases/download/" ++ version ++ "/" ++ version ++ ".tar.gz"

/-! ## Concrete instances used by counterexamples and witnesses -/

/-- A release-metadata value for the demonstration catalog. -/
def demoRelease : ReleaseInfo :=
  { date := "2024-01-01"
    type := "hard"
    width := "100"
    height := "100"
    cell_count := "50"
    clock_freq_mhz := "10"
    maturity := some "stable" }

/-- A Flat-schema record with a single release v1.0.0. -/
def demoFlat : FlatIPData :=
  { description := "AES core"
    repo := "github.com/acme/widget"
    author := "ann"
    email := "ann@acme.org"
    category := "digital"
    technology := "sky130"
    license := "MIT"
    tags := ["crypto"]
    release := [("v1.0.0", demoRelease)] }

/-- A Flat-schema catalog holding the single package widget. -/
def demoCatalog : Catalog := [("widget", .flat demoFlat)]

/-- The descriptor that resolving widget against demoCatalog yields. -/
def demoResolved : ResolvedRemote :=
  { name := "widget"
    repo := "github.com/acme/widget"
    version := "v1.0.0"
    date := "2024-01-01"
    category := "digital"
    technology := "sky130"
    release_url := "https://github.com/acme/widget/archive/refs/tags/widget-v1.0.0.tar.gz" }

/-- A Legacy-schema record for the package widget. -/
def demoLegacyRec : LegacyIPData :=
  { name := "widget"
    repo := "github.com/acme/widget"
    release := [{ version := "v1.0.0", date := "2024-01-01" }]
    author := "ann"
    email := "ann@acme.org"
    type := "hard"
    status := "stable"
    width := "100"
    height := "100"
    technology := "sky130"
    tag := ["crypto"]
    cell_count := "50"
    clk_freq := "10"
    license := "MIT" }

/-- A Legacy-schema catalog with the single category digital. -/
def demoLegacyCatalog : Catalog := [("digital", .legacyList [demoLegacyRec])]

/-- A download environment over demoCatalog where every URL answers 200
with an archive holding the single file a.txt. -/
def demoEnv : RemoteEnv :=
  { catalog := demoCatalog
    status := fun _ => 200
    archive := fun _ => [.file "a.txt"] }

/-- A clean state: no tracked directories, an empty digital bucket, an
empty dependency manifest at the root /r. -/
def demoState : IPMState :=
  { fs := []
    registry := [("digital", [])]
    depsFiles := [("/r", [])] }

/-- A state whose manifest at /r already holds a dependency entry for
widget at an older version (for the round-trip counterexample). -/
def c7state : IPMState :=
  { fs := []
    registry := [("digital", [])]
    depsFiles := [("/r", [{ name := "widget", version := "v0.9.0", technology := "sky130" }])] }

/-- A state where /r/widget exists non-empty while the registry has no
entry for widget (for the overwrite counterexample). -/
def c5state : IPMState :=
  { fs := [("/r/widget", ["stale.txt"])]
    registry := [("digital", [])]
    depsFiles := [("/d", [])] }

/-- An installed registry record for widget at root /r. -/
def c6rec : RegRecord :=
  { name := "widget"
    repo := "github.com/acme/widget"
    version := "v1.0.0"
    date := "2024-01-01"
    technology := "sky130"
    category := "digital"
    ip_root := "/r" }

/-- A registry whose digital bucket holds the SAME matching record twice
in a row. -/
def c6reg : Registry := [("digital", [c6rec, c6rec])]

/-- A registry whose digital bucket holds one matching record. -/
def c6wreg : Registry := [("digital", [c6rec])]

/-- A state where /r/widget exists non-empty (for the bulk stop witness). -/
def c9state : IPMState :=
  { fs := [("/r/widget", ["stale.txt"])]
    registry := [("digital", [])]
    depsFiles := [("/r", [])] }

/-- The state after fetch-and-place of widget v1.0.0 into demoState. -/
def c8s2 : IPMState :=
  { fs := [("/r/widget", ["a.txt"])]
    registry := [("digital", [mkInstalledRecord demoResolved "/r"])]
    depsFiles := [("/r", [])] }

end IPM

namespace IPM

/-! ## Helper lemmas: the remove-while-iterating loop -/

theorem removeLoopAux_congr_fuel {α : Type} [DecidableEq α] (p : α → Bool) :
    ∀ (f1 f2 : Nat) (l : List α) (i : Nat), l.length - i ≤ f1 →
      l.length - i ≤ f2 → removeLoopAux p f1 l i = removeLoopAux p f2 l i := by
  intro f1
  induction f1 with
  | zero =>
    intro f2 l i h1 h2
    cases f2 with
    | zero => rfl
    | succ f2 =>
      simp only [removeLoopAux]
      rw [dif_neg (by omega)]
  | succ f1 ih =>
    intro f2 l i h1 h2
    by_cases hi : i < l.length
    · cases f2 with
      | zero => omega
      | succ f2 =>
        simp only [removeLoopAux, dif_pos hi]
        by_cases hp : p l[i] = true
        · rw [if_pos hp, if_pos hp]
          have hx : l[i] ∈ l := List.getElem_mem hi
          have hlen := List.length_erase_of_mem hx
          exact ih f2 (l.erase l[i]) (i + 1) (by omega) (by omega)
        · rw [if_neg hp, if_neg hp]
          exact ih f2 l (i + 1) (by omega) (by omega)
    · cases f2 with
      | zero =>
        simp only [removeLoopAux]
        rw [dif_neg hi]
      | succ f2 =>
        simp only [removeLoopAux]
        rw [dif_neg hi, dif_neg hi]

theorem removeLoop_of_ge {α : Type} [DecidableEq α] (p : α → Bool) {l : List α}
    {i : Nat} (h : l.length ≤ i) : removeLoop p l i = l := by
  unfold removeLoop
  simp only [removeLoopAux]
  rw [dif_neg (by omega)]

theorem removeLoop_of_true {α : Type} [DecidableEq α] (p : α → Bool) {l : List α}
    {i : Nat} (h : i < l.length) (hp : p l[i] = true) :
    removeLoop p l i = removeLoop p (l.erase l[i]) (i + 1) := by
  have hx : l[i] ∈ l := List.getElem_mem h
  have hlen := List.length_erase_of_mem hx
  unfold removeLoop
  simp only [removeLoopAux]
  rw [dif_pos h, if_pos hp]
  exact removeLoopAux_congr_fuel p l.length ((l.erase l[i]).length + 1)
    (l.erase l[i]) (i + 1) (by omega) (by omega)

theorem removeLoop_of_false {α : Type} [DecidableEq α] (p : α → Bool) {l : List α}
    {i : Nat} (h : i < l.length) (hp : p l[i] = false) :
    removeLoop p l i = removeLoop p l (i + 1) := by
  unfold removeLoop
  simp only [removeLoopAux]
  rw [dif_pos h, if_neg (by simp [hp])]
  exact removeLoopAux_congr_fuel p l.length (l.length + 1) l (i + 1)
    (by omega) (by omega)

theorem countP_not_erase {α : Type} [DecidableEq α] (p : α → Bool) {x : α}
    (hx : p x = true) (l : List α) :
    (l.erase x).countP (fun a => !p a) = l.countP (fun a => !p a) := by
  induction l with
  | nil => simp
  | cons a t ih =>
    by_cases hax : a = x
    · subst hax
      rw [List.erase_cons_head, List.countP_cons]
      simp [hx]
    · rw [List.erase_cons_tail (by simp [hax]), List.countP_cons, List.countP_cons, ih]

theorem removeLoop_countP_not {α : Type} [DecidableEq α] (p : α → Bool)
    (l : List α) (i : Nat) :
    (removeLoop p l i).countP (fun a => !p a) = l.countP (fun a => !p a) := by
  suffices h : ∀ (n : Nat) (l : List α) (i : Nat), l.length - i ≤ n →
      (removeLoop p l i).countP (fun a => !p a) = l.countP (fun a => !p a) from
    h l.length l i (by omega)
  intro n
  induction n with
  | zero =>
    intro l i hle
    rw [removeLoop_of_ge p (by omega)]
  | succ n ih =>
    intro l i hle
    by_cases hi : i < l.length
    · by_cases hp : p l[i] = true
      · rw [removeLoop_of_true p hi hp]
        have hx : l[i] ∈ l := List.getElem_mem hi
        have hlen := List.length_erase_of_mem hx
        rw [ih (l.erase l[i]) (i + 1) (by omega)]
        exact countP_not_erase p hp l
      · rw [removeLoop_of_false p hi (by simpa using hp)]
        exact ih l (i + 1) (by omega)
    · rw [removeLoop_of_ge p (by omega)]

theorem removeLoop_sublist {α : Type} [DecidableEq α] (p : α → Bool)
    (l : List α) (i : Nat) : (removeLoop p l i).Sublist l := by
  suffices h : ∀ (n : Nat) (l : List α) (i : Nat), l.length - i ≤ n →
      (removeLoop p l i).Sublist l from h l.length l i (by omega)
  intro n
  induction n with
  | zero =>
    intro l i hle
    rw [removeLoop_of_ge p (by omega)]
  | succ n ih =>
    intro l i hle
    by_cases hi : i < l.length
    · by_cases hp : p l[i] = true
      · rw [removeLoop_of_true p hi hp]
        have hx : l[i] ∈ l := List.getElem_mem hi
        have hlen := List.length_erase_of_mem hx
        exact (ih (l.erase l[i]) (i + 1) (by omega)).trans (List.erase_sublist _ _)
      · rw [removeLoop_of_false p hi (by simpa using hp)]
        exact ih l (i + 1) (by omega)
    · rw [removeLoop_of_ge p (by omega)]

theorem removeLoop_cons_shift {α : Type} [DecidableEq α] (p : α → Bool) {a : α}
    (ha : p a = false) (l : List α) (i : Nat) :
    removeLoop p (a :: l) (i + 1) = a :: removeLoop p l i := by
  suffices h : ∀ (n : Nat) (l : List α) (i : Nat), l.length - i ≤ n →
      removeLoop p (a :: l) (i + 1) = a :: removeLoop p l i from
    h l.length l i (by omega)
  intro n
  induction n with
  | zero =>
    intro l i hle
    rw [removeLoop_of_ge p (by simp; omega), removeLoop_of_ge p (by omega)]
  | succ n ih =>
    intro l i hle
    by_cases hi : i < l.length
    · have hi2 : i + 1 < (a :: l).length := by simp; omega
      have hget : (a :: l)[i + 1] = l[i] := by simp
      by_cases hp : p l[i] = true
      · have hax : a ≠ l[i] := fun hcon => by rw [hcon] at ha; rw [ha] at hp; cases hp
        rw [removeLoop_of_true p hi2 (by rw [hget]; exact hp), hget,
          List.erase_cons_tail (by simp [hax])]
        have hx : l[i] ∈ l := List.getElem_mem hi
        have hlen := List.length_erase_of_mem hx
        rw [ih (l.erase l[i]) (i + 1) (by omega), removeLoop_of_true p hi hp]
      · rw [removeLoop_of_false p hi2 (by rw [hget]; simpa using hp),
          ih l (i + 1) (by omega), removeLoop_of_false p hi (by simpa using hp)]
    · rw [removeLoop_of_ge p (by simp; omega), removeLoop_of_ge p (by omega)]

theorem removeLoop_all_false {α : Type} [DecidableEq α] (p : α → Bool)
    {l : List α} (hall : ∀ x ∈ l, p x = false) (i : Nat) :
    removeLoop p l i = l := by
  suffices h : ∀ (n : Nat) (l : List α) (i : Nat), (∀ x ∈ l, p x = false) →
      l.length - i ≤ n → removeLoop p l i = l from h l.length l i hall (by omega)
  intro n
  induction n with
  | zero =>
    intro l i _ hle
    rw [removeLoop_of_ge p (by omega)]
  | succ n ih =>
    intro l i hall hle
    by_cases hi : i < l.length
    · have hp : p l[i] = false := hall _ (List.getElem_mem hi)
      rw [removeLoop_of_false p hi hp]
      exact ih l (i + 1) hall (by omega)
    · rw [removeLoop_of_ge p (by omega)]

theorem removeLoop_append_singleton {α : Type} [DecidableEq α] (p : α → Bool)
    {r : α} (hr : p r = true) (b : List α) (hb : ∀ x ∈ b, p x = false) :
    removeLoop p (b ++ [r]) 0 = b := by
  induction b with
  | nil =>
    have h0 : (0 : Nat) < ([] ++ [r] : List α).length := by simp
    have hg : ([] ++ [r] : List α)[0] = r := by simp
    rw [removeLoop_of_true p h0 (by rw [hg]; exact hr), hg]
    simp [removeLoop_of_ge]
  | cons a b2 ih =>
    have ha : p a = false := hb a (by simp)
    have h0 : (0 : Nat) < ((a :: b2) ++ [r]).length := by simp
    have hg : ((a :: b2) ++ [r])[0] = a := by simp
    rw [List.cons_append, removeLoop_of_false p (by simp) (by simpa using ha)]
    rw [removeLoop_cons_shift p ha]
    rw [ih (fun x hx => hb x (by simp [hx]))]

theorem removeLoop_length_lt {α : Type} [DecidableEq α] (p : α → Bool) :
    ∀ l : List α, (∃ x ∈ l, p x = true) → (removeLoop p l 0).length < l.length := by
  intro l
  induction l with
  | nil => rintro ⟨x, hx, _⟩; cases hx
  | cons a t ih =>
    rintro ⟨x, hx, hpx⟩
    by_cases hpa : p a = true
    · have h0 : (0 : Nat) < (a :: t).length := by simp
      have hg : (a :: t)[0] = a := by simp
      rw [removeLoop_of_true p h0 (by rw [hg]; exact hpa), hg, List.erase_cons_head]
      have hs := (removeLoop_sublist p t 1).length_le
      simp
      omega
    · have hpa2 : p a = false := by simpa using hpa
      have h0 : (0 : Nat) < (a :: t).length := by simp
      have hg : (a :: t)[0] = a := by simp
      rw [removeLoop_of_false p h0 (by rw [hg]; exact hpa2)]
      rw [removeLoop_cons_shift p hpa2]
      have hxt : x ∈ t := by
        rcases List.mem_cons.mp hx with h | h
        · exact absurd (h ▸ hpx) hpa
        · exact h
      have := ih ⟨x, hxt, hpx⟩
      simp
      omega

/-! ## Helper lemmas: association lists (Python dictionaries) -/

theorem assocLookup_assocSet_self {α : Type} (k : String) (v : α)
    (l : List (String × α)) : assocLookup k (assocSet k v l) = some v := by
  induction l with
  | nil => simp [assocSet, assocLookup]
  | cons kv t ih =>
    by_cases h : kv.1 = k
    · simp [assocSet, assocLookup, h]
    · cases kv with
      | mk k2 v2 =>
        simp only at h
        simp [assocSet, assocLookup, h, ih]

theorem assocSet_of_lookup_eq {α : Type} {k : String} {v : α}
    {l : List (String × α)} (h : assocLookup k l = some v) : assocSet k v l = l := by
  induction l with
  | nil => simp [assocLookup] at h
  | cons kv t ih =>
    cases kv with
    | mk k2 v2 =>
      by_cases hk : k2 = k
      · simp only [assocLookup, if_pos hk] at h
        injection h with h
        simp [assocSet, hk, h]
      · simp only [assocLookup, if_neg hk] at h
        simp [assocSet, hk, ih h]

theorem assocSet_assocSet {α : Type} (k : String) (v w : α)
    (l : List (String × α)) : assocSet k v (assocSet k w l) = assocSet k v l := by
  induction l with
  | nil => simp [assocSet]
  | cons kv t ih =>
    cases kv with
    | mk k2 v2 =>
      by_cases hk : k2 = k
      · simp [assocSet, hk]
      · simp [assocSet, hk, ih]

theorem assocLookup_mem {α : Type} {k : String} {v : α} {l : List (String × α)}
    (h : assocLookup k l = some v) : (k, v) ∈ l := by
  induction l with
  | nil => simp [assocLookup] at h
  | cons kv t ih =>
    cases kv with
    | mk k2 v2 =>
      by_cases hk : k2 = k
      · simp only [assocLookup, if_pos hk] at h
        injection h with h
        simp [hk, h]
      · simp only [assocLookup, if_neg hk] at h
        simp [ih h]

theorem fsLookup_fsRemove (p : String) (fs : List (String × List String)) :
    fsLookup (fsRemove p fs) p = none := by
  induction fs with
  | nil => rfl
  | cons kv t ih =>
    cases kv with
    | mk k v =>
      by_cases hk : k = p
      · simp [fsRemove, fsLookup, assocLookup, hk] at ih ⊢
        exact ih
      · simp [fsRemove, fsLookup, assocLookup, hk] at ih ⊢
        exact ih

/-! ## Helper lemmas: registry lookup and the fetch-place sequence -/

theorem scanBucket_no_match {ip tech : String} (key : String)
    {b : List RegRecord} (hb : ∀ r ∈ b, ¬ (r.name = ip ∧ r.technology = tech))
    (acc : Option (String × RegRecord)) : scanBucket ip tech key b acc = acc := by
  induction b generalizing acc with
  | nil => rfl
  | cons r rs ih =>
    have hr := hb r (by simp)
    simp only [scanBucket, if_neg hr]
    exact ih (fun x hx => hb x (by simp [hx])) acc

theorem scanBucket_append_match {ip tech : String} (key : String)
    (b : List RegRecord) {r : RegRecord} (hr : r.name = ip ∧ r.technology = tech)
    (acc : Option (String × RegRecord)) :
    scanBucket ip tech key (b ++ [r]) acc = some (key, r) := by
  induction b generalizing acc with
  | nil => simp [scanBucket, if_pos hr]
  | cons a b2 ih =>
    rw [List.cons_append]
    simp only [scanBucket]
    exact ih _

theorem localGetInfoGo_no_match {ip tech : String} {reg : Registry}
    (h : ∀ kb ∈ reg, ∀ r ∈ kb.2, ¬ (r.name = ip ∧ r.technology = tech))
    (acc : Option (String × RegRecord)) : localGetInfoGo ip tech reg acc = acc := by
  induction reg generalizing acc with
  | nil => rfl
  | cons kb rest ih =>
    cases kb with
    | mk key bucket =>
      simp only [localGetInfoGo]
      rw [scanBucket_no_match key (fun r hr => h (key, bucket) (by simp) r hr) acc]
      exact ih (fun x hx r hr => h x (by simp [hx]) r hr) acc

theorem regHasName_false_iff {reg : Registry} {ip : String} :
    regHasName reg ip = false ↔ ∀ kb ∈ reg, ∀ r ∈ kb.2, r.name ≠ ip := by
  simp [regHasName]

theorem local_get_info_of_noName {reg : Registry} {ip : String}
    (h : regHasName reg ip = false) (tech : String) :
    local_get_info reg ip tech = none := by
  have h2 := regHasName_false_iff.mp h
  exact localGetInfoGo_no_match
    (fun kb hkb r hr hc => h2 kb hkb r hr hc.1) none

theorem local_get_info_append_match {reg : Registry} {ip : String}
    (hno : regHasName reg ip = false) {cat : String} {b : List RegRecord}
    (hb : assocLookup cat reg = some b) {rec : RegRecord} {tech : String}
    (hname : rec.name = ip) (htech : rec.technology = tech) :
    local_get_info (assocSet cat (b ++ [rec]) reg) ip tech = some (cat, rec) := by
  have h2 := regHasName_false_iff.mp hno
  suffices hgen : ∀ (reg : Registry), (∀ kb ∈ reg, ∀ r ∈ kb.2, r.name ≠ ip) →
      assocLookup cat reg = some b →
      ∀ acc, localGetInfoGo ip tech (assocSet cat (b ++ [rec]) reg) acc = some (cat, rec) from
    hgen reg h2 hb none
  intro reg2 hno2 hb2
  induction reg2 with
  | nil => simp [assocLookup] at hb2
  | cons kb rest ih =>
    intro acc
    cases kb with
    | mk k v =>
      by_cases hk : k = cat
      · simp only [assocSet, if_pos hk, localGetInfoGo]
        rw [scanBucket_append_match cat b ⟨hname, htech⟩ acc]
        exact localGetInfoGo_no_match
          (fun x hx r hr hc => hno2 x (by simp [hx]) r hr hc.1) _
      · simp only [assocLookup, if_neg hk] at hb2
        simp only [assocSet, if_neg hk, localGetInfoGo]
        rw [scanBucket_no_match k
          (fun r hr hc => hno2 (k, v) (by simp) r hr hc.1) acc]
        exact ih (fun x hx r hr => hno2 x (by simp [hx]) r hr) hb2 acc

theorem install_fetch_place_depsFiles (env : RemoteEnv) (s : IPMState)
    (ip technology : String) (version : Option String) (ip_root : String) :
    ((install_fetch_place env s ip technology version ip_root).1).depsFiles =
      s.depsFiles := by
  unfold install_fetch_place
  split
  · rfl
  · simp only []
    split
    · rfl
    · split
      · rfl
      · rfl

theorem install_fetch_place_success {env : RemoteEnv} {s : IPMState}
    {ip technology : String} {version : Option String} {ip_root : String}
    {s2 : IPMState} {r : ResolvedRemote} {aroot : String}
    (h : install_fetch_place env s ip technology version ip_root =
      (s2, .success r aroot)) :
    remote_get_info env.catalog ip technology version = .ok r ∧
    env.status r.release_url = 200 ∧
    aroot = pabspath ip_root ∧
    s2.depsFiles = s.depsFiles ∧
    (∃ b, assocLookup r.category s.registry = some b ∧
      s2.registry =
        assocSet r.category (b ++ [mkInstalledRecord r (pabspath ip_root)])
          s.registry) := by
  unfold install_fetch_place at h
  split at h
  · simp at h
  · rename_i r2 hres
    simp only [] at h
    split at h
    · simp at h
    · rename_i hcode
      split at h
      · simp at h
      · rename_i reg2 root2 hadd
        simp only [Prod.mk.injEq, CoreResult.success.injEq] at h
        obtain ⟨hs2, hr2, hroot2⟩ := h
        subst hr2
        unfold add_ip_to_json at hadd
        split at hadd
        · simp at hadd
        · rename_i bucket hbucket
          simp only [Except.ok.injEq, Prod.mk.injEq] at hadd
          obtain ⟨hreg2, hroot3⟩ := hadd
          refine ⟨hres, by omega, ?_, ?_, bucket, hbucket, ?_⟩
          · rw [← hroot2, ← hroot3]
          · rw [← hs2]
          · rw [← hs2, ← hreg2]

theorem install_fetch_place_of {env : RemoteEnv} {s : IPMState}
    {ip technology : String} {version : Option String} {r : ResolvedRemote}
    {b : List RegRecord} (ip_root : String)
    (hres : remote_get_info env.catalog ip technology version = .ok r)
    (hstatus : env.status r.release_url = 200)
    (hcat : assocLookup r.category s.registry = some b) :
    install_fetch_place env s ip technology version ip_root =
      ({ fs := fsSet (pjoin ip_root ip)
            ((classify_contents (env.archive r.release_url)).map fnodeName) s.fs
         registry := assocSet r.category
            (b ++ [mkInstalledRecord r (pabspath ip_root)]) s.registry
         depsFiles := s.depsFiles },
       .success r (pabspath ip_root)) := by
  unfold install_fetch_place
  rw [hres]
  simp only [hstatus]
  rw [if_neg (by omega)]
  unfold add_ip_to_json
  simp only []
  rw [hcat]

/-! ## Helper lemmas: the Legacy version scan with an absent version -/

theorem legacy_fold_no_ver {ver : String} {rel : List LegacyRelease}
    (h : ∀ lr ∈ rel, lr.version ≠ ver) (st1 : RemoteInfo) :
    rel.foldl
      (fun acc l =>
        if l.version = ver then
          { acc with version := some l.version, date := some l.date }
        else acc) st1 = st1 := by
  induction rel generalizing st1 with
  | nil => rfl
  | cons lr rel ih =>
    simp only [List.foldl_cons]
    rw [if_neg (h lr (by simp))]
    exact ih (fun x hx => h x (by simp [hx])) st1

theorem legacy_record_populate_no_ver (ip tech key ver : String)
    {r : LegacyIPData} (st : RemoteInfo)
    (h : ∀ lr ∈ r.release, lr.version ≠ ver) :
    ∃ st3, legacy_record_populate ip tech key (some ver) r st = .ok st3 ∧
      st3.version = st.version ∧ st3.repo = some r.repo := by
  unfold legacy_record_populate
  simp only []
  rw [legacy_fold_no_ver h]
  exact ⟨_, rfl, rfl, rfl⟩

theorem legacy_bucket_scan_no_ver (ip tech key ver : String) :
    ∀ (recs : List LegacyIPData) (st : RemoteInfo),
      (∀ r ∈ recs, r.name = ip ∧ r.technology = tech →
        ∀ lr ∈ r.release, lr.version ≠ ver) →
      ∃ st2, legacy_bucket_scan ip tech key (some ver) recs st = .ok st2 ∧
        st2.version = st.version ∧
        ((∃ r ∈ recs, r.name = ip ∧ r.technology = tech) →
          st2.repo.isSome = true) ∧
        (st.repo.isSome = true → st2.repo.isSome = true) := by
  intro recs
  induction recs with
  | nil =>
    intro st _
    exact ⟨st, rfl, rfl, (by rintro ⟨r, hr, _⟩; cases hr), fun h => h⟩
  | cons r rs ih =>
    intro st hno
    by_cases hm : r.name = ip ∧ r.technology = tech
    · obtain ⟨st3, hpop, hver3, hrepo3⟩ :=
        legacy_record_populate_no_ver ip tech key ver st (hno r (by simp) hm)
      have hstep : legacy_bucket_scan ip tech key (some ver) (r :: rs) st =
          legacy_bucket_scan ip tech key (some ver) rs st3 := by
        simp only [legacy_bucket_scan]
        rw [if_pos hm, hpop]
      obtain ⟨st2, hscan, hver2, hmatch2, hpres2⟩ :=
        ih st3 (fun x hx => hno x (by simp [hx]))
      refine ⟨st2, hstep.trans hscan, hver2.trans hver3, ?_, ?_⟩
      · intro _
        exact hpres2 (by rw [hrepo3]; rfl)
      · intro _
        exact hpres2 (by rw [hrepo3]; rfl)
    · have hstep : legacy_bucket_scan ip tech key (some ver) (r :: rs) st =
          legacy_bucket_scan ip tech key (some ver) rs st := by
        simp only [legacy_bucket_scan]
        rw [if_neg hm]
      obtain ⟨st2, hscan, hver2, hmatch2, hpres2⟩ :=
        ih st (fun x hx => hno x (by simp [hx]))
      refine ⟨st2, hstep.trans hscan, hver2, ?_, hpres2⟩
      rintro ⟨r2, hr2, hm2⟩
      rcases List.mem_cons.mp hr2 with h | h
      · exact absurd (h ▸ hm2) hm
      · exact hmatch2 ⟨r2, h, hm2⟩

theorem legacy_scan_no_ver (ip tech ver : String) :
    ∀ (data : Catalog) (st : RemoteInfo),
      (∀ kv ∈ data, ∀ v : FlatIPData, kv.2 ≠ CatalogEntryVal.flat v) →
      (∀ kv ∈ data, ∀ recs, kv.2 = CatalogEntryVal.legacyList recs →
        ∀ r ∈ recs, r.name = ip ∧ r.technology = tech →
        ∀ lr ∈ r.release, lr.version ≠ ver) →
      ∃ st2, legacy_scan ip tech (some ver) data st = .ok st2 ∧
        st2.version = st.version ∧
        ((∃ kv ∈ data, ∃ recs, kv.2 = CatalogEntryVal.legacyList recs ∧
            ∃ r ∈ recs, r.name = ip ∧ r.technology = tech) →
          st2.repo.isSome = true) ∧
        (st.repo.isSome = true → st2.repo.isSome = true) := by
  intro data
  induction data with
  | nil =>
    intro st _ _
    exact ⟨st, rfl, rfl, (by rintro ⟨kv, hkv, _⟩; cases hkv), fun h => h⟩
  | cons kv rest ih =>
    intro st hflat hno
    cases kv with
    | mk key val =>
      cases val with
      | flat v => exact absurd rfl (hflat (key, .flat v) (by simp) v)
      | legacyList recs =>
        obtain ⟨st3, hbucket, hver3, hmatch3, hpres3⟩ :=
          legacy_bucket_scan_no_ver ip tech key ver recs st
            (hno (key, .legacyList recs) (by simp) recs rfl)
        have hstep : legacy_scan ip tech (some ver)
            ((key, .legacyList recs) :: rest) st =
            legacy_scan ip tech (some ver) rest st3 := by
          simp only [legacy_scan]
          rw [hbucket]
        obtain ⟨st2, hscan, hver2, hmatch2, hpres2⟩ :=
          ih st3 (fun x hx => hflat x (by simp [hx]))
            (fun x hx => hno x (by simp [hx]))
        refine ⟨st2, hstep.trans hscan, hver2.trans hver3, ?_,
          fun h => hpres2 (hpres3 h)⟩
        rintro ⟨kv2, hkv2, recs2, hrecs2, r2, hr2, hm2⟩
        rcases List.mem_cons.mp hkv2 with h | h
        · rw [h] at hrecs2
          injection hrecs2 with hrecs2
          subst hrecs2
          exact hpres2 (hmatch3 ⟨r2, hr2, hm2⟩)
        · exact hmatch2 ⟨kv2, h, recs2, hrecs2, r2, hr2, hm2⟩

/-- Claim C1, counterexample: for repo `github.com/widget` (host
github.com, a single path segment) the specification rule demands the
archive/refs/tags URL, but the source checks `len(repo_parts) >= 3`,
takes the fallback branch, and produces the releases/download URL.  The
two URL builders therefore disagree at this concrete input. -/
theorem c1_counterexample :
    claim_url "github.com/widget" "v1.0.0" ≠ release_url "github.com/widget" "v1.0.0" ∧
    release_url "github.com/widget" "v1.0.0" =
      "https://github.com/widget/releases/download/v1.0.0/v1.0.0.tar.gz" := by
  constructor
  · decide
  · rfl

/-- Claim C1, amended: the URL builder produces the archive/refs/tags URL
exactly when the repo string has at least three slash-separated segments
and contains github.com as a substring (not when its host is github.com),
with the last segment as the repo base name; otherwise it produces the
releases/download URL.  Both literal cases of the claim hold. -/
theorem c1_release_url_amended (repo version : String) :
    (3 ≤ (splitSlash repo).length → hasGithub repo = true →
      release_url repo version =
        "https://" ++ repo ++ "/archive/refs/tags/" ++ (splitSlash repo).getLastD "" ++
          "-" ++ version ++ ".tar.gz") ∧
    (¬ (3 ≤ (splitSlash repo).length ∧ hasGithub repo = true) →
      release_url repo version =
        "https://" ++ repo ++ "/releases/download/" ++ version ++ "/" ++ version ++ ".tar.gz") ∧
    release_url "github.com/acme/widget" "v1.2.0" =
      "https://github.com/acme/widget/archive/refs/tags/widget-v1.2.0.tar.gz" ∧
    release_url "example.org/acme/widget" "v1.2.0" =
      "https://example.org/acme/widget/releases/download/v1.2.0/v1.2.0.tar.gz" := by
  refine ⟨?_, ?_, by rfl, by rfl⟩
  · intro h1 h2
    simp only [release_url, if_pos (And.intro h1 h2)]
  · intro h
    simp only [release_url, if_neg h]

/-- Witness for the amended claim C1 at a concrete repo and version. -/
theorem c1_release_url_amended_witness :
    release_url "github.com/chipfoundry/EF_AES" "v1.1.0" =
      "https://github.com/chipfoundry/EF_AES/archive/refs/tags/EF_AES-v1.1.0.tar.gz" := by
  have h := (c1_release_url_amended "github.com/chipfoundry/EF_AES" "v1.1.0").1
    (by decide) (by decide)
  simpa using h

/-- Claim C2, counterexample: on a Legacy catalog whose only category is
digital, the listing-side detection rule classifies the document as
Legacy, but the resolver called for the package name digital treats it as
Flat (the name is a top-level key) and fails with a type error while
subscripting the category list.  The operations therefore do NOT decide
the schema by the same rule. -/
theorem c2_counterexample :
    detect_flat_get_IP_list demoLegacyCatalog = false ∧
    detect_flat_remote "digital" demoLegacyCatalog = true ∧
    remote_get_info demoLegacyCatalog "digital" "sky130" none = .error .typeError := by
  exact ⟨rfl, rfl, rfl⟩

/-- Claim C2, amended: the listing, local-listing, info and
name-enumeration operations share the first-top-level-key description
rule, but version/URL resolution instead treats the document as Flat
exactly when the requested name occurs as a top-level key; when that name
matches a Legacy category key, the resolver takes the Flat path and fails
with a type error. -/
theorem c2_detection_amended (data : Catalog) (ip technology : String)
    (version : Option String) :
    detect_flat_list_IPs data = detect_flat_get_IP_list data ∧
    detect_flat_list_IPs_local data = detect_flat_get_IP_list data ∧
    detect_flat_get_IP_info data = detect_flat_get_IP_list data ∧
    detect_flat_remote ip data = containsKey ip data ∧
    (∀ recs, assocLookup ip data = some (.legacyList recs) →
      remote_get_info_raw data ip technology version = .error .typeError) := by
  refine ⟨rfl, rfl, rfl, rfl, ?_⟩
  intro recs h
  have hc : containsKey ip data = true := by
    unfold containsKey
    rw [h]
    rfl
  unfold remote_get_info_raw
  rw [if_pos hc, h]

/-- Witness for the amended claim C2 at the concrete Legacy catalog. -/
theorem c2_detection_amended_witness :
    remote_get_info_raw demoLegacyCatalog "digital" "sky130" none = .error .typeError :=
  (c2_detection_amended demoLegacyCatalog "digital" "sky130" none).2.2.2.2
    [demoLegacyRec] rfl

/-- Claim C3, divergence at the failing input: the check-all loop
compares the local against the remote version and reports up to date when
they are equal, but the single-package check compares the local version
against the version ARGUMENT of the call, which is None for a plain
check, so it reports an update available even when the local and remote
versions are both v1.0.0. -/
theorem c3_check_divergence :
    check_single "v1.0.0" none = CheckOutcome.updateAvailable ∧
    check_all_entry "v1.0.0" "v1.0.0" = CheckOutcome.upToDate := by
  exact ⟨rfl, rfl⟩

/-- Claim C4, counterexample: resolving widget at the absent version
v9.9.9 against the demo Flat catalog does not fail with the
VersionNotFoundError the specification names; the resolver leaves the
version attribute unset and the URL construction step aborts with an
attribute access error. -/
theorem c4_counterexample :
    remote_get_info demoCatalog "widget" "sky130" (some "v9.9.9") =
      .error (.attributeError "version") ∧
    PyErr.attributeError "version" ≠ PyErr.versionNotFound := by
  exact ⟨rfl, by decide⟩

/-- Claim C4, amended: when an explicitly requested version is absent
from the record, the resolver proceeds with a partially populated record
and then aborts with an attribute access error on the unset version
during URL construction, not with a dedicated VersionNotFoundError.
Flat schema: the release map and the record-level fields are set while
the version field stays none.  Legacy schema (the version scan of
common.py lines 253-260): every matched record sets name, repo and the
record-level fields, the version scan finds nothing and leaves the
version field unset, and the URL construction then fails the same
way. -/
theorem c4_version_absent_amended (data : Catalog) (ip technology ver : String) :
    (∀ v : FlatIPData, assocLookup ip data = some (.flat v) →
      (v.release.map Prod.fst).contains ver = false →
      (flat_populate ip technology (some ver) v).release = some v.release ∧
      (flat_populate ip technology (some ver) v).version = none ∧
      remote_get_info data ip technology (some ver) =
        .error (.attributeError "version")) ∧
    (containsKey ip data = false →
      (∀ kv ∈ data, ∀ v : FlatIPData, kv.2 ≠ CatalogEntryVal.flat v) →
      (∃ kv ∈ data, ∃ recs, kv.2 = CatalogEntryVal.legacyList recs ∧
        ∃ r ∈ recs, r.name = ip ∧ r.technology = technology) →
      (∀ kv ∈ data, ∀ recs, kv.2 = CatalogEntryVal.legacyList recs →
        ∀ r ∈ recs, r.name = ip ∧ r.technology = technology →
        ∀ lr ∈ r.release, lr.version ≠ ver) →
      ∃ st, legacy_scan ip technology (some ver) data {} = .ok st ∧
        st.version = none ∧ st.repo.isSome = true ∧
        remote_get_info data ip technology (some ver) =
          .error (.attributeError "version")) := by
  constructor
  · intro v h hver
    have hst : flat_populate ip technology (some ver) v =
        { name := some ip
          repo := some v.repo
          author := some v.author
          email := some v.email
          category := some v.category
          technology := some technology
          license := some v.license
          tag := some v.tags
          release := some v.release } := by
      unfold flat_populate
      simp only []
      rw [if_neg (by rw [hver]; exact Bool.false_ne_true)]
    have hc : containsKey ip data = true := by
      unfold containsKey
      rw [h]
      rfl
    have hurl : build_release_url (flat_populate ip technology (some ver) v) =
        .error (.attributeError "version") := by
      rw [hst]
      unfold build_release_url
      simp only []
      split
      · rfl
      · rfl
    refine ⟨by rw [hst], by rw [hst], ?_⟩
    unfold remote_get_info remote_get_info_raw
    rw [if_pos hc, h]
    simp only []
    rw [hurl]
  · intro hkey hflat hmatch hno
    obtain ⟨st, hscan, hver2, hmatchI, _⟩ :=
      legacy_scan_no_ver ip technology ver data {} hflat hno
    have hvn : st.version = none := hver2.trans rfl
    have hsome : st.repo.isSome = true := hmatchI hmatch
    obtain ⟨rp, hrp⟩ := Option.isSome_iff_exists.mp hsome
    have hurl : build_release_url st = .error (.attributeError "version") := by
      unfold build_release_url
      rw [hrp]
      simp only []
      split
      · rw [hvn]
      · rw [hvn]
    refine ⟨st, hscan, hvn, hsome, ?_⟩
    unfold remote_get_info remote_get_info_raw
    rw [if_neg (by rw [hkey]; simp)]
    rw [hscan]
    simp only []
    rw [hurl]

/-- Witness for the amended claim C4, exercising BOTH schema cases at
the absent version v9.9.9: the Flat catalog for the package widget and
the Legacy catalog whose digital category holds the widget record. -/
theorem c4_version_absent_amended_witness :
    remote_get_info demoCatalog "widget" "sky130" (some "v9.9.9") =
      .error (.attributeError "version") ∧
    remote_get_info demoLegacyCatalog "widget" "sky130" (some "v9.9.9") =
      .error (.attributeError "version") := by
  have h1 := (c4_version_absent_amended demoCatalog "widget" "sky130" "v9.9.9").1
    demoFlat rfl rfl
  have h2 := (c4_version_absent_amended demoLegacyCatalog "widget" "sky130"
      "v9.9.9").2
    rfl
    (by
      intro kv hkv v
      simp only [demoLegacyCatalog, List.mem_singleton] at hkv
      subst hkv
      intro hcon
      cases hcon)
    ⟨("digital", .legacyList [demoLegacyRec]), by simp [demoLegacyCatalog],
      [demoLegacyRec], rfl, demoLegacyRec, by simp, rfl, rfl⟩
    (by
      intro kv hkv recs hrecs r hr hcond
      simp only [demoLegacyCatalog, List.mem_singleton] at hkv
      subst hkv
      injection hrecs with hrecs
      subst hrecs
      simp only [List.mem_singleton] at hr
      subst hr
      decide)
  obtain ⟨st, _, _, _, hremote⟩ := h2
  exact ⟨h1.2.2, hremote⟩

/-- Claim C5, counterexample: with overwrite set and a non-empty existing
destination, the claim demands that the (here vacuous) removal of
existing entries is followed by deleting the tree and reinstalling; the
source instead calls remove_ip_from_json first, whose registry lookup
(get_info) finds no sky130 entry for the name and then dereferences the
unset repo attribute in its unconditional release-URL construction
(common.py line 113), raising AttributeError, so the operation aborts
with the directory still in place and nothing reinstalled. -/
theorem c5_counterexample :
    install_ip demoEnv c5state "widget" true "sky130" none "/r" (some "/d") =
      (c5state, .pyError (.attributeError "repo")) ∧
    fsLookup c5state.fs "/r/widget" = some ["stale.txt"] := by
  exact ⟨rfl, rfl⟩

/-- Claim C5, amended: when the destination exists non-empty and
overwrite is unset, install reports the existing destination and performs
no mutation; with overwrite set, the registry removal (which resolves the
root from the last sky130 registry entry of the name, aborting with an
AttributeError on the unset repo attribute when there is none) runs
first, then the dependency removal for the name, then the tree deletion,
and only then the reinstall; when the destination exists empty, it is
deleted and the install proceeds like a fresh one with no error, for any
overwrite flag. -/
theorem c5_guard_amended (env : RemoteEnv) (s : IPMState) (ip technology : String)
    (version : Option String) (ip_root : String) (deps_file : Option String)
    (es : List String) (hfs : fsLookup s.fs (pjoin ip_root ip) = some es) :
    (es ≠ [] →
      install_ip env s ip false technology version ip_root deps_file =
        (s, .destinationExists)) ∧
    (es ≠ [] → local_get_info s.registry ip "sky130" = none →
      install_ip env s ip true technology version ip_root deps_file =
        (s, .pyError (.attributeError "repo"))) ∧
    (∀ reg2 root2 d2, es ≠ [] →
      remove_ip_from_json s.registry ip = .ok (reg2, root2) →
      remove_from_deps s.depsFiles (deps_file.getD root2) ip = .ok d2 →
      install_ip env s ip true technology version ip_root deps_file =
        install_core env
          { fs := fsRemove (pjoin ip_root ip) s.fs, registry := reg2, depsFiles := d2 }
          ip technology version ip_root deps_file) ∧
    (es = [] → ∀ overwrite,
      install_ip env s ip overwrite technology version ip_root deps_file =
        install_core env { s with fs := fsRemove (pjoin ip_root ip) s.fs }
          ip technology version ip_root deps_file) := by
  refine ⟨?_, ?_, ?_, ?_⟩
  · intro hne
    unfold install_ip
    simp only []
    rw [hfs]
    simp only []
    rw [if_pos hne, if_pos (by simp)]
  · intro hne hinfo
    unfold install_ip
    simp only []
    rw [hfs]
    simp only []
    rw [if_pos hne, if_neg (by simp)]
    unfold remove_ip_from_json
    rw [hinfo]
  · intro reg2 root2 d2 hne hrm hrd
    unfold install_ip
    simp only []
    rw [hfs]
    simp only []
    rw [if_pos hne, if_neg (by simp), hrm]
    simp only []
    rw [hrd]
  · intro he overwrite
    subst he
    unfold install_ip
    simp only []
    rw [hfs]
    simp only []
    rw [if_neg (by simp)]

/-- Witness for the amended claim C5 at the concrete non-empty
destination without overwrite. -/
theorem c5_guard_amended_witness :
    install_ip demoEnv c5state "widget" false "sky130" none "/r" (some "/d") =
      (c5state, .destinationExists) :=
  (c5_guard_amended demoEnv c5state "widget" "sky130" none "/r" (some "/d")
    ["stale.txt"] rfl).1 (by decide)

/-- Claim C6, counterexample: a digital bucket holding the SAME matching
record twice in a row; the remove-while-iterating loop removes the first
copy, the second slides into the freed slot, the iteration index still
advances, and the second copy survives — not all entries matching name
and root are removed. -/
theorem c6_counterexample :
    remove_ip_from_json c6reg "widget" = .ok ([("digital", [c6rec])], "/r") ∧
    removeMatch "widget" "/r" c6rec = true := by
  exact ⟨rfl, rfl⟩

/-- Claim C6, amended: removal matches on name and the stored root of the
last sky130 entry; entries whose name or root differ are never touched
(their count is preserved and the result is a subsequence of the bucket),
and at least one matching entry is removed when one exists, but the
Python iterate-and-remove loop can skip a matching entry that directly
follows a removed one, so not ALL matching entries are removed in
general. -/
theorem c6_remove_amended (reg : Registry) (ip cat : String) (rec : RegRecord)
    (b : List RegRecord)
    (hinfo : local_get_info reg ip "sky130" = some (cat, rec))
    (hb : assocLookup cat reg = some b) :
    remove_ip_from_json reg ip =
      .ok (assocSet cat (removeLoop (removeMatch ip rec.ip_root) b 0) reg,
        rec.ip_root) ∧
    (removeLoop (removeMatch ip rec.ip_root) b 0).countP
        (fun x => !(removeMatch ip rec.ip_root x)) =
      b.countP (fun x => !(removeMatch ip rec.ip_root x)) ∧
    (removeLoop (removeMatch ip rec.ip_root) b 0).Sublist b ∧
    ((∃ x ∈ b, removeMatch ip rec.ip_root x = true) →
      (removeLoop (removeMatch ip rec.ip_root) b 0).length < b.length) := by
  refine ⟨?_, removeLoop_countP_not _ b 0, removeLoop_sublist _ b 0,
    removeLoop_length_lt _ b⟩
  unfold remove_ip_from_json
  rw [hinfo]
  simp only []
  rw [hb]

/-- Witness for the amended claim C6 at a one-record bucket. -/
theorem c6_remove_amended_witness :
    remove_ip_from_json c6wreg "widget" = .ok ([("digital", [])], "/r") := by
  have h := (c6_remove_amended c6wreg "widget" "digital" c6rec [c6rec] rfl rfl).1
  exact h.trans (by rfl)

/-- Claim C7, counterexample: install widget v1.0.0 from a state whose
dependency manifest at /r already lists widget v0.9.0.  The install
appends a second widget entry; the uninstall removes dependency entries
by NAME with the iterate-and-remove loop, which deletes the old v0.9.0
entry and skips the new one, leaving a manifest different from the
pre-install one — the round trip does not restore the manifest. -/
theorem c7_counterexample :
    (install_ip demoEnv c7state "widget" false "sky130" none "/r" none).2 =
      .ok "v1.0.0" ∧
    (uninstall_ip (install_ip demoEnv c7state "widget" false "sky130" none "/r" none).1
      "widget" "/r" none).2 = .ok ∧
    (uninstall_ip (install_ip demoEnv c7state "widget" false "sky130" none "/r" none).1
      "widget" "/r" none).1.depsFiles =
      [("/r", [{ name := "widget", version := "v1.0.0", technology := "sky130" }])] ∧
    c7state.depsFiles =
      [("/r", [{ name := "widget", version := "v0.9.0", technology := "sky130" }])] ∧
    (uninstall_ip (install_ip demoEnv c7state "widget" false "sky130" none "/r" none).1
      "widget" "/r" none).1.depsFiles ≠ c7state.depsFiles := by
  refine ⟨rfl, rfl, rfl, rfl, by decide⟩

/-- Claim C7, amended: install followed by uninstall removes the install
directory and restores the registry and dependency manifest exactly,
PROVIDED the registry has no pre-existing entry with the installed name
and the manifest at the install root exists and has no entry with that
name; otherwise the name-based dependency removal of uninstall changes
pre-existing entries (see the counterexample). -/
theorem c7_roundtrip (env : RemoteEnv) (s : IPMState) (p : String)
    (v : Option String) (ip_root : String) (r : ResolvedRemote)
    (b : List RegRecord) (d : List DepEntry)
    (hres : remote_get_info env.catalog p "sky130" v = .ok r)
    (hname : r.name = p) (htech : r.technology = "sky130")
    (hstatus : env.status r.release_url = 200)
    (hdir : fsLookup s.fs (pjoin ip_root p) = none)
    (hcat : assocLookup r.category s.registry = some b)
    (hno : regHasName s.registry p = false)
    (hdeps : assocLookup ip_root s.depsFiles = some d)
    (hnod : ∀ x ∈ d, x.name ≠ p) :
    (install_ip env s p false "sky130" v ip_root none).2 = .ok r.version ∧
    (uninstall_ip (install_ip env s p false "sky130" v ip_root none).1
      p ip_root none).2 = .ok ∧
    (uninstall_ip (install_ip env s p false "sky130" v ip_root none).1
      p ip_root none).1.registry = s.registry ∧
    (uninstall_ip (install_ip env s p false "sky130" v ip_root none).1
      p ip_root none).1.depsFiles = s.depsFiles ∧
    fsLookup (uninstall_ip (install_ip env s p false "sky130" v ip_root none).1
      p ip_root none).1.fs (pjoin ip_root p) = none := by
  have hfetch := install_fetch_place_of (s := s) ip_root hres hstatus hcat
  have hinst : install_ip env s p false "sky130" v ip_root none =
      ({ fs := fsSet (pjoin ip_root p)
            ((classify_contents (env.archive r.release_url)).map fnodeName) s.fs
         registry := assocSet r.category
            (b ++ [mkInstalledRecord r (pabspath ip_root)]) s.registry
         depsFiles := assocSet ip_root
            (d ++ [{ name := r.name, version := r.version, technology := r.technology }])
            s.depsFiles },
       .ok r.version) := by
    unfold install_ip
    simp only []
    rw [hdir]
    unfold install_core
    rw [hfetch]
    simp only []
    unfold create_deps
    simp only []
    rw [show (none : Option String).getD (pabspath ip_root) = ip_root from rfl,
      hdeps]
    rfl
  rw [hinst]
  simp only []
  have hrecname : (mkInstalledRecord r (pabspath ip_root)).name = p := hname
  have hrectech : (mkInstalledRecord r (pabspath ip_root)).technology = "sky130" := htech
  have hinfo2 : local_get_info
      (assocSet r.category (b ++ [mkInstalledRecord r (pabspath ip_root)]) s.registry)
      p "sky130" = some (r.category, mkInstalledRecord r (pabspath ip_root)) :=
    local_get_info_append_match hno hcat hrecname hrectech
  have hbmem : ∀ x ∈ b, x.name ≠ p := by
    intro x hx
    exact regHasName_false_iff.mp hno (r.category, b) (assocLookup_mem hcat) x hx
  have hbucket2 : removeLoop
      (removeMatch p (mkInstalledRecord r (pabspath ip_root)).ip_root)
      (b ++ [mkInstalledRecord r (pabspath ip_root)]) 0 = b := by
    apply removeLoop_append_singleton
    · simp [removeMatch, hrecname]
    · intro x hx
      simp [removeMatch, hbmem x hx]
  have hrm : remove_ip_from_json
      (assocSet r.category (b ++ [mkInstalledRecord r (pabspath ip_root)]) s.registry)
      p = .ok (s.registry, pabspath ip_root) := by
    unfold remove_ip_from_json
    rw [hinfo2]
    simp only []
    rw [assocLookup_assocSet_self]
    simp only []
    rw [hbucket2, assocSet_assocSet, assocSet_of_lookup_eq hcat]
    rfl
  have hdoc2 : removeLoop (fun dd => dd.name == p)
      (d ++ [{ name := r.name, version := r.version, technology := r.technology }]) 0
      = d := by
    apply removeLoop_append_singleton
    · simp [hname]
    · intro x hx
      simp [hnod x hx]
  have hrd : remove_from_deps
      (assocSet ip_root
        (d ++ [{ name := r.name, version := r.version, technology := r.technology }])
        s.depsFiles)
      ((none : Option String).getD (pabspath ip_root)) p = .ok s.depsFiles := by
    rw [show (none : Option String).getD (pabspath ip_root) = ip_root from rfl]
    unfold remove_from_deps
    rw [assocLookup_assocSet_self]
    simp only []
    rw [hdoc2, assocSet_assocSet, assocSet_of_lookup_eq hdeps]
  have huninst : uninstall_ip
      ({ fs := fsSet (pjoin ip_root p)
            ((classify_contents (env.archive r.release_url)).map fnodeName) s.fs
         registry := assocSet r.category
            (b ++ [mkInstalledRecord r (pabspath ip_root)]) s.registry
         depsFiles := assocSet ip_root
            (d ++ [{ name := r.name, version := r.version, technology := r.technology }])
            s.depsFiles } : IPMState)
      p ip_root none =
      ({ fs := fsRemove (pjoin ip_root p)
            (fsSet (pjoin ip_root p)
              ((classify_contents (env.archive r.release_url)).map fnodeName) s.fs)
         registry := s.registry
         depsFiles := s.depsFiles }, .ok) := by
    unfold uninstall_ip
    simp only []
    rw [show fsLookup (fsSet (pjoin ip_root p)
        ((classify_contents (env.archive r.release_url)).map fnodeName) s.fs)
        (pjoin ip_root p) =
        some ((classify_contents (env.archive r.release_url)).map fnodeName) from
      assocLookup_assocSet_self _ _ _]
    simp only []
    rw [hrm]
    simp only []
    rw [hrd]
  rw [huninst]
  refine ⟨?_, ?_, ?_, ?_, fsLookup_fsRemove _ _⟩
  · trivial
  · trivial
  · trivial
  · trivial

/-- Witness for the amended claim C7: the round trip from the clean demo
state restores the registry and the manifest. -/
theorem c7_roundtrip_witness :
    (uninstall_ip (install_ip demoEnv demoState "widget" false "sky130" none "/r" none).1
      "widget" "/r" none).1.registry = demoState.registry ∧
    (uninstall_ip (install_ip demoEnv demoState "widget" false "sky130" none "/r" none).1
      "widget" "/r" none).1.depsFiles = demoState.depsFiles := by
  have h := c7_roundtrip demoEnv demoState "widget" none "/r" demoResolved [] []
    rfl rfl rfl rfl rfl rfl rfl rfl (by simp)
  exact ⟨h.2.2.1, h.2.2.2.1⟩

/-- Claim C8, counterexample: a PLAIN single-package install from the
clean demo state appends the dependency entry widget v1.0.0 to the
manifest at /r, although it is not part of any dependency set — the claim
says a plain install appends no dependency entry. -/
theorem c8_counterexample :
    (install_ip demoEnv demoState "widget" false "sky130" (some "v1.0.0") "/r" none).2 =
      .ok "v1.0.0" ∧
    (install_ip demoEnv demoState "widget" false "sky130" (some "v1.0.0") "/r" none).1.depsFiles =
      [("/r", [{ name := "widget", version := "v1.0.0", technology := "sky130" }])] ∧
    demoState.depsFiles = [("/r", [])] := by
  exact ⟨rfl, rfl, rfl⟩

/-- Claim C8, amended: on success an installed record is appended into
the registry bucket of its category by both installers, but the
dependency entry is appended by the PLAIN single-package install (always,
via create_deps), while the bulk dependency installer leaves the
dependency manifests untouched — the opposite of the claimed
direction. -/
theorem c8_dep_entry_amended (env : RemoteEnv) (s s2 : IPMState)
    (ip technology ver ip_root aroot : String) (deps_file : Option String)
    (r : ResolvedRemote) (ipList : List String)
    (h : install_fetch_place env s ip technology (some ver) ip_root =
      (s2, .success r aroot))
    (hl : ipList.contains ip = true)
    (hd : fsLookup s.fs (pjoin ip_root ip) = none) :
    install_ip env s ip false technology (some ver) ip_root deps_file =
      ({ s2 with
         depsFiles := create_deps s2.depsFiles (deps_file.getD aroot)
           { name := r.name, version := r.version, technology := r.technology } },
       .ok r.version) ∧
    install_deps_go env false ip_root deps_file ipList s
      [{ name := ip, version := ver, technology := technology }] = (s2, .done) ∧
    s2.depsFiles = s.depsFiles ∧
    (∃ bk, assocLookup r.category s.registry = some bk ∧
      s2.registry = assocSet r.category
        (bk ++ [mkInstalledRecord r (pabspath ip_root)]) s.registry) := by
  obtain ⟨_, _, _, hdeps2, hreg2⟩ := install_fetch_place_success h
  refine ⟨?_, ?_, hdeps2, hreg2⟩
  · unfold install_ip
    simp only []
    rw [hd]
    unfold install_core
    rw [h]
  · unfold install_deps_go
    rw [if_neg (by rw [hl]; simp)]
    simp only []
    rw [hd]
    simp only []
    rw [h]
    simp only [install_deps_go]

/-- Witness for the amended claim C8: the bulk installer over the single
entry widget v1.0.0 ends in the fetch-and-place state, whose manifests
equal those of the starting state. -/
theorem c8_dep_entry_amended_witness :
    install_deps_go demoEnv false "/r" none ["widget"] demoState
      [{ name := "widget", version := "v1.0.0", technology := "sky130" }] =
      (c8s2, .done) ∧
    c8s2.depsFiles = demoState.depsFiles := by
  have h := c8_dep_entry_amended demoEnv demoState c8s2 "widget" "sky130" "v1.0.0"
    "/r" "/r" none demoResolved ["widget"] rfl rfl rfl
  exact ⟨h.2.1, h.2.2.1⟩

/-- Claim C9, confirmed: when the bulk dependency installer reaches an
entry whose destination directory exists non-empty and overwrite is
unset, it RETURNS from the whole operation at that point: the state
reached so far (the installs of earlier entries) is kept unchanged and
neither this entry nor any later entry is downloaded, installed or
recorded. -/
theorem c9_bulk_stop (env : RemoteEnv) (ip_root : String)
    (deps_file : Option String) (ipList : List String) (s : IPMState)
    (e : DepEntry) (rest : List DepEntry) (es : List String)
    (hl : ipList.contains e.name = true)
    (hfs : fsLookup s.fs (pjoin ip_root e.name) = some es)
    (hne : es ≠ []) :
    install_deps_go env false ip_root deps_file ipList s (e :: rest) =
      (s, .stopped) := by
  unfold install_deps_go
  rw [if_neg (by rw [hl]; simp)]
  simp only []
  rw [hfs]
  simp only []
  rw [if_pos hne, if_pos (by simp)]

/-- Witness for claim C9 at the concrete state with a stale non-empty
destination. -/
theorem c9_bulk_stop_witness :
    install_deps_go demoEnv false "/r" none ["widget"] c9state
      [{ name := "widget", version := "v1.0.0", technology := "sky130" }] =
      (c9state, .stopped) :=
  c9_bulk_stop demoEnv "/r" none ["widget"] c9state
    { name := "widget", version := "v1.0.0", technology := "sky130" } []
    ["stale.txt"] rfl rfl (by decide)

/-- Claim C10, confirmed: uninstalling a package whose directory
ip_root/ip does not exist leaves the whole state — registry document and
dependency manifests included — unchanged and only reports that the IP
was not found. -/
theorem c10_uninstall_missing (s : IPMState) (ip ip_root : String)
    (deps_file : Option String)
    (h : fsLookup s.fs (pjoin ip_root ip) = none) :
    uninstall_ip s ip ip_root deps_file = (s, .notFound) := by
  unfold uninstall_ip
  simp only []
  rw [h]

/-- Witness for claim C10 at the clean demo state. -/
theorem c10_uninstall_missing_witness :
    uninstall_ip demoState "widget" "/r" none = (demoState, .notFound) :=
  c10_uninstall_missing demoState "widget" "/r" none rfl

end IPM
